import Mathlib

/-!
# Verification of `zippyshare_downloader/fetcher.py`

A shallow embedding of the module `zippyshare_downloader.fetcher`.

The module orchestrates: fetching a share-page, detecting site failure
markers in the HTML body, invoking the external parser/finalizer
collaborators, downloading the resolved file, and optional zip/unzip
post-processing, in both a blocking form (`get_info`, `download`,
`extract_info`) and a coroutine form (`get_info_coro`, `download_coro`,
`extract_info_coro`).

External collaborators (`requests`/`aiohttp`, `parse_info`,
`finalization_info`, `File.download`, `extract_archived_file`) live in
modules outside the embedded file and are modelled as an environment of
abstract functions (`Env`).  Effects (page fetches, finalizer
invocations, file downloads, unzipping, zip-archive writes, file
removals) are recorded in a chronological event trace, and a small disk
semantics replays traces to a filesystem state.
-/

namespace Zippyshare

/-- A resolved-info mapping (`Dict[str, str]` in the source). -/
abbrev Info := List (String × String)

/-- A filesystem path, split as `pathlib.Path`-style directory plus
final component, so that `path.parent / zip` is expressible. -/
structure FPath where
  dir : String
  name : String
deriving DecidableEq, Repr, Inhabited

/-- The keyword arguments forwarded to `File.download(**kwargs)`:
the `filename` entry (the one `download`/`download_coro` strip) is
explicit, everything else is opaque. -/
structure DlOpts where
  filename : Option String
  rest : List (String × String)
deriving DecidableEq, Repr, Inhabited

/-- Errors raised by the fetcher module.  `valueError` is the
`ValueError("unzip and zip paramaters cannot be set together")` (the
spec calls it `ConfigurationError`); `indexError` is the `IndexError`
from `list(downloaded_files.values())[0]` on an empty dict;
`httpError` carries the HTTP status of `raise_for_status`;
`fileExpired` is `errors.FileExpired`; `fileNotFound` is Python's
builtin `FileNotFoundError`; `downloadError` is any failure surfaced
by the `File.download` collaborator. -/
inductive Err where
  | httpError (status : Nat)
  | fileExpired
  | fileNotFound
  | downloadError
  | valueError
  | indexError
deriving DecidableEq, Repr

/-- `File` entity: wraps one resolved-info mapping (`file.File`). -/
structure File where
  info : Info
deriving DecidableEq, Repr, Inhabited

/-- Observable effects of a run, in chronological order. -/
inductive Event where
  | fetchPage (url : String)
  | finalize
  | downloadFile (opts : DlOpts) (path : FPath)
  | unzipFile (path : FPath)
  | createZip (path : FPath)
  | zipWrite (archive : FPath) (entry : FPath)
  | removeFile (path : FPath)
deriving DecidableEq, Repr

/-- The external collaborators consumed by the fetcher.
`page` is the HTTP GET of the share page (`.error status` models a
`raise_for_status` failure); `parse_info` and `finalization_info` are
the parser collaborators; `finalization_info_coro` is the
session-taking coroutine form of the finalizer; `download` is the
blocking `File.download`; `download_coro` is `File.download_coro`. -/
structure Env where
  page : String → Except Nat String
  parse_info : String → String → Info
  finalization_info : Info → Info
  finalization_info_coro : Info → Info
  download : Info → DlOpts → Except Err FPath
  download_coro : Info → DlOpts → Except Err FPath

/-- The literal expiry marker scanned for in the page body. -/
def expiredMsg : String := "File has expired and does not exist anymore on this server"

/-- The literal not-found marker scanned for in the page body. -/
def notFoundMsg : String := "File does not exist on this server"

/-- Substring containment on character lists (Python's `marker in body`). -/
def listContains (marker : List Char) : List Char → Bool
  | [] => marker.isEmpty
  | c :: t => marker.isPrefixOf (c :: t) || listContains marker t

/-- Substring containment on strings (Python's `marker in body`). -/
def strContains (body marker : String) : Bool :=
  listContains marker.toList body.toList

/-- Blocking resolver `get_info(url)` (fetcher.py lines 25-46):
GET the page; propagate an HTTP-status failure; raise `FileExpired`
if the expiry marker occurs in the body; raise `FileNotFoundError` if
the not-found marker occurs; otherwise return
`finalization_info(parse_info(url, body))`. -/
def get_info (env : Env) (url : String) : Except Err Info × List Event :=
  match env.page url with
  | .error status => (.error (.httpError status), [.fetchPage url])
  | .ok body =>
    if strContains body expiredMsg then
      (.error .fileExpired, [.fetchPage url])
    else if strContains body notFoundMsg then
      (.error .fileNotFound, [.fetchPage url])
    else
      (.ok (env.finalization_info (env.parse_info url body)),
        [.fetchPage url, .finalize])

/-- Coroutine resolver `get_info_coro(url)` (fetcher.py lines 48-75):
identical control flow, but the finalizer is the coroutine form
`finalization_info(parse_info(url, body), True, session)`. -/
def get_info_coro (env : Env) (url : String) : Except Err Info × List Event :=
  match env.page url with
  | .error status => (.error (.httpError status), [.fetchPage url])
  | .ok body =>
    if strContains body expiredMsg then
      (.error .fileExpired, [.fetchPage url])
    else if strContains body notFoundMsg then
      (.error .fileNotFound, [.fetchPage url])
    else
      (.ok (env.finalization_info_coro (env.parse_info url body)),
        [.fetchPage url, .finalize])

/-- Python truthiness of a string: only the empty string is falsy. -/
def strTruthy (s : String) : Bool := decide (s ≠ "")

/-- Python truthiness of the `zip: str = None` argument: `None` and the
empty string are falsy, any non-empty string is truthy. -/
def zipTruthy : Option String → Bool
  | none => false
  | some s => strTruthy s

/-- The in-loop kwargs mutation
`if kwargs.get('filename') is not None: kwargs.pop('filename')`. -/
def stripFilename (k : DlOpts) : DlOpts :=
  if k.filename.isSome then { k with filename := none } else k

/-- Body of the per-URL loop of `download` (fetcher.py lines 110-119):
resolve via `get_info`, apply `finalization_info` a second time,
build the `File`, append it, strip a caller-supplied `filename`,
download, record the path, optionally unzip in place; abort the whole
loop at the first failure.  `files` and `downloaded` accumulate the
result list and the `downloaded_files` dict (insertion-ordered). -/
def downloadLoop (env : Env) (unzip : Bool) :
    List String → DlOpts → List File → List (File × FPath) →
    Except Err (List File × List (File × FPath)) × List Event
  | [], _, files, downloaded => (.ok (files, downloaded), [])
  | url :: rest, kwargs, files, downloaded =>
    match get_info env url with
    | (.error e, ev) => (.error e, ev)
    | (.ok i, ev) =>
      let info := env.finalization_info i
      let file : File := ⟨info⟩
      let kwargs' := stripFilename kwargs
      match env.download info kwargs' with
      | .error e => (.error e, ev ++ [.finalize])
      | .ok fp =>
        let evU := if unzip then [Event.unzipFile fp] else []
        let (res, evRest) :=
          downloadLoop env unzip rest kwargs' (files ++ [file])
            (downloaded ++ [(file, fp)])
        (res, ev ++ [.finalize, .downloadFile kwargs' fp] ++ evU ++ evRest)

/-- The zip post-processing step of `download` (fetcher.py lines
120-132): take the first value of the `downloaded_files` dict
(`IndexError` when it is empty), open a new archive at
`path.parent / zip`, and for each recorded path write it into the
archive and `os.remove` it. -/
def zipStep (zipName : String) (downloaded : List (File × FPath)) :
    Except Err Unit × List Event :=
  match downloaded with
  | [] => (.error .indexError, [])
  | (_, p₀) :: _ =>
    let zipPath : FPath := ⟨p₀.dir, zipName⟩
    (.ok (),
      .createZip zipPath ::
        (downloaded.map fun fp =>
          [Event.zipWrite zipPath fp.2, Event.removeFile fp.2]).flatten)

/-- Modelled from the spec: `utils.archive_zip(downloaded_files, zip)`
(called by `download_coro`) is not under `src/`; spec §4.3 step 5 says
it creates a new archive named `zip_name` alongside the first
downloaded file, writes every accumulated file into it, then deletes
each original file from disk. -/
def archive_zip (downloaded : List (File × FPath)) (zipName : String) :
    Except Err Unit × List Event :=
  match downloaded with
  | [] => (.error .indexError, [])
  | (_, p₀) :: _ =>
    let zipPath : FPath := ⟨p₀.dir, zipName⟩
    (.ok (),
      .createZip zipPath ::
        (downloaded.map fun fp =>
          [Event.zipWrite zipPath fp.2, Event.removeFile fp.2]).flatten)

/-- Batch orchestrator `download(*urls, zip=None, unzip=False, **kwargs)`
(fetcher.py lines 77-133): raise `ValueError` if `unzip` and `zip` are
both truthy, run the per-URL loop, then run the zip post-processing
when `zip` is truthy, and return the list of `File` entities. -/
def download (env : Env) (urls : List String) (zipArg : Option String)
    (unzip : Bool) (kwargs : DlOpts) : Except Err (List File) × List Event :=
  if unzip && zipTruthy zipArg then (.error .valueError, [])
  else
    match downloadLoop env unzip urls kwargs [] [] with
    | (.error e, ev) => (.error e, ev)
    | (.ok (files, downloaded), ev) =>
      match zipArg with
      | some zname =>
        if strTruthy zname then
          match zipStep zname downloaded with
          | (.error e, zev) => (.error e, ev ++ zev)
          | (.ok _, zev) => (.ok files, ev ++ zev)
        else (.ok files, ev)
      | none => (.ok files, ev)

/-- Body of the per-URL loop of `download_coro` (fetcher.py lines
236-247): identical to the blocking loop except that the resolver is
`get_info_coro` (which finalizes once, with the coroutine finalizer,
and is NOT re-finalized by the caller) and the transfer is
`File.download_coro`. -/
def downloadCoroLoop (env : Env) (unzip : Bool) :
    List String → DlOpts → List File → List (File × FPath) →
    Except Err (List File × List (File × FPath)) × List Event
  | [], _, files, downloaded => (.ok (files, downloaded), [])
  | url :: rest, kwargs, files, downloaded =>
    match get_info_coro env url with
    | (.error e, ev) => (.error e, ev)
    | (.ok info, ev) =>
      let file : File := ⟨info⟩
      let kwargs' := stripFilename kwargs
      match env.download_coro info kwargs' with
      | .error e => (.error e, ev)
      | .ok fp =>
        let evU := if unzip then [Event.unzipFile fp] else []
        let (res, evRest) :=
          downloadCoroLoop env unzip rest kwargs' (files ++ [file])
            (downloaded ++ [(file, fp)])
        (res, ev ++ [.downloadFile kwargs' fp] ++ evU ++ evRest)

/-- Batch orchestrator `download_coro(*urls, zip=None, unzip=False,
**kwargs)` (fetcher.py lines 200-252): same shape as `download`, with
the zip post-processing offloaded to `utils.archive_zip`. -/
def download_coro (env : Env) (urls : List String) (zipArg : Option String)
    (unzip : Bool) (kwargs : DlOpts) : Except Err (List File) × List Event :=
  if unzip && zipTruthy zipArg then (.error .valueError, [])
  else
    match downloadCoroLoop env unzip urls kwargs [] [] with
    | (.error e, ev) => (.error e, ev)
    | (.ok (files, downloaded), ev) =>
      match zipArg with
      | some zname =>
        if strTruthy zname then
          match archive_zip downloaded zname with
          | (.error e, zev) => (.error e, ev ++ zev)
          | (.ok _, zev) => (.ok files, ev ++ zev)
        else (.ok files, ev)
      | none => (.ok files, ev)

/-- Single-URL `extract_info(url, download=True, unzip=False, **kwargs)`
(fetcher.py lines 135-164): `info = finalization_info(get_info(url))`
(a second finalization), build the `File`, and when `download` is true
transfer it (kwargs passed through unchanged, `filename` included) and
optionally unzip; the `File` is returned either way. -/
def extract_info (env : Env) (url : String) (downloadFlag : Bool)
    (unzip : Bool) (kwargs : DlOpts) : Except Err File × List Event :=
  match get_info env url with
  | (.error e, ev) => (.error e, ev)
  | (.ok i, ev) =>
    let info := env.finalization_info i
    let file : File := ⟨info⟩
    if downloadFlag then
      match env.download info kwargs with
      | .error e => (.error e, ev ++ [.finalize])
      | .ok fp =>
        let evU := if unzip then [Event.unzipFile fp] else []
        (.ok file, ev ++ [.finalize, .downloadFile kwargs fp] ++ evU)
    else (.ok file, ev ++ [.finalize])

/-- Single-URL `extract_info_coro(url, download=True, unzip=False,
**kwargs)` (fetcher.py lines 166-198): `info = await get_info_coro(url)`
(finalized exactly once), build the `File`, and when `download` is true
run `process_download` (the blocking `file.download(**kwargs)` plus
optional unzip) in an executor; the `File` is returned either way. -/
def extract_info_coro (env : Env) (url : String) (downloadFlag : Bool)
    (unzip : Bool) (kwargs : DlOpts) : Except Err File × List Event :=
  match get_info_coro env url with
  | (.error e, ev) => (.error e, ev)
  | (.ok info, ev) =>
    let file : File := ⟨info⟩
    if downloadFlag then
      match env.download info kwargs with
      | .error e => (.error e, ev)
      | .ok fp =>
        let evU := if unzip then [Event.unzipFile fp] else []
        (.ok file, ev ++ [.downloadFile kwargs fp] ++ evU)
    else (.ok file, ev)

/-- The URLs actually fetched over the network, in order. -/
def fetchedUrls (evs : List Event) : List String :=
  evs.filterMap fun e =>
    match e with
    | .fetchPage u => some u
    | _ => none

/-- The local paths of completed file transfers, in order. -/
def completedDownloads (evs : List Event) : List FPath :=
  evs.filterMap fun e =>
    match e with
    | .downloadFile _ p => some p
    | _ => none

/-- How many times the Finalizer collaborator was invoked. -/
def finalizeCount (evs : List Event) : Nat :=
  (evs.filter fun e => e = .finalize).length

/-- A filesystem state: plain files present, and archives with their
recorded contents. -/
structure Disk where
  plain : List FPath
  archives : List (FPath × List FPath)
deriving DecidableEq, Repr

/-- The empty disk. -/
def Disk.empty : Disk := ⟨[], []⟩

/-- Replay one event against a disk state. -/
def applyEvent (d : Disk) : Event → Disk
  | .downloadFile _ p => { d with plain := d.plain ++ [p] }
  | .removeFile p => { d with plain := d.plain.filter (· ≠ p) }
  | .createZip z => { d with archives := d.archives ++ [(z, [])] }
  | .zipWrite z p =>
      { d with archives := d.archives.map fun a =>
          if a.1 = z then (a.1, a.2 ++ [p]) else a }
  | _ => d

/-- Replay a trace from the empty disk. -/
def runDisk (evs : List Event) : Disk := evs.foldl applyEvent Disk.empty

/-- The DlOpts actually handed to the download collaborator, in order. -/
def downloadOptsUsed (evs : List Event) : List DlOpts :=
  evs.filterMap fun e =>
    match e with
    | .downloadFile o _ => some o
    | _ => none

/-- The paths unzipped in place, in order. -/
def unzippedPaths (evs : List Event) : List FPath :=
  evs.filterMap fun e =>
    match e with
    | .unzipFile p => some p
    | _ => none

/-- The outcome of one iteration of the blocking batch loop for one
URL: the `File` entity it builds (note: its info is finalized TWICE,
once inside `get_info` and once by the loop) and the downloaded path,
or the first error encountered. -/
def stepResult (env : Env) (k : DlOpts) (url : String) :
    Except Err (File × FPath) :=
  match (get_info env url).1 with
  | .error e => .error e
  | .ok i =>
    let info := env.finalization_info i
    match env.download info (stripFilename k) with
    | .error e => .error e
    | .ok fp => .ok (⟨info⟩, fp)

/-- The outcome of one iteration of the coroutine batch loop for one
URL (info finalized exactly once, inside `get_info_coro`). -/
def stepResultCoro (env : Env) (k : DlOpts) (url : String) :
    Except Err (File × FPath) :=
  match (get_info_coro env url).1 with
  | .error e => .error e
  | .ok info =>
    match env.download_coro info (stripFilename k) with
    | .error e => .error e
    | .ok fp => .ok (⟨info⟩, fp)

/-- The `File` entity a successful blocking iteration appends. -/
def stepFile (env : Env) (k : DlOpts) (url : String) : File :=
  match stepResult env k url with
  | .ok r => r.1
  | .error _ => default

/-- The local path a successful blocking iteration records. -/
def stepPath (env : Env) (k : DlOpts) (url : String) : FPath :=
  match stepResult env k url with
  | .ok r => r.2
  | .error _ => default

/-- The `File` entity a successful coroutine iteration appends. -/
def stepFileCoro (env : Env) (k : DlOpts) (url : String) : File :=
  match stepResultCoro env k url with
  | .ok r => r.1
  | .error _ => default

/-- The local path a successful coroutine iteration records. -/
def stepPathCoro (env : Env) (k : DlOpts) (url : String) : FPath :=
  match stepResultCoro env k url with
  | .ok r => r.2
  | .error _ => default

/-- The trace of one successful blocking iteration: page fetch, the
finalization inside `get_info`, the loop's second finalization, the
transfer, and the optional in-place unzip. -/
def stepEvents (env : Env) (uz : Bool) (k : DlOpts) (u : String) :
    List Event :=
  [.fetchPage u, .finalize, .finalize,
    .downloadFile (stripFilename k) (stepPath env k u)] ++
    (if uz then [Event.unzipFile (stepPath env k u)] else [])

/-- The trace of one successful coroutine iteration (one finalization). -/
def stepEventsCoro (env : Env) (uz : Bool) (k : DlOpts) (u : String) :
    List Event :=
  [.fetchPage u, .finalize,
    .downloadFile (stripFilename k) (stepPathCoro env k u)] ++
    (if uz then [Event.unzipFile (stepPathCoro env k u)] else [])

/-- The trace of the blocking iteration that aborts the batch. -/
def failEvents (env : Env) (u : String) : List Event :=
  match (get_info env u).1 with
  | .error _ => [.fetchPage u]
  | .ok _ => [.fetchPage u, .finalize, .finalize]

/-- The trace of the coroutine iteration that aborts the batch. -/
def failEventsCoro (env : Env) (u : String) : List Event :=
  match (get_info_coro env u).1 with
  | .error _ => [.fetchPage u]
  | .ok _ => [.fetchPage u, .finalize]

/-- Whether a trace contains only per-URL loop events (no zip-archive
creation or writes and no file removals). -/
def loopOnly (evs : List Event) : Bool :=
  evs.all fun e =>
    match e with
    | .removeFile _ => false
    | .createZip _ => false
    | .zipWrite _ _ => false
    | _ => true

/-- A page body with no failure marker. -/
def cleanBody : String := "window dlbutton page"

/-- A page body containing BOTH failure markers, the expiry one and
the not-found one. -/
def expiredBody : String :=
  "alert File has expired and does not exist anymore on this server also File does not exist on this server end"

/-- A page body containing the not-found marker but not the expiry
marker. -/
def missingBody : String := "note File does not exist on this server end"

/-- Look up the source URL recorded in a resolved-info mapping. -/
def urlOf (i : Info) : String := (i.lookup "u").getD "x"

/-- A concrete collaborator environment for concrete runs: one URL
serves a page with both failure markers, one serves a not-found page,
one fails at the HTTP layer, the rest are clean; the parser records
url and body; the finalizer prepends a marker entry (and is therefore
NOT idempotent); downloads succeed with a path derived from the
recorded URL.  The coroutine collaborators behave identically to the
blocking ones. -/
def wEnv : Env where
  page u :=
    if u = "urlExpired" then .ok expiredBody
    else if u = "urlMissing" then .ok missingBody
    else if u = "urlHttp" then .error 404
    else .ok cleanBody
  parse_info u body := [("u", u), ("b", body)]
  finalization_info i := ("fin", "1") :: i
  finalization_info_coro i := ("fin", "1") :: i
  download i _ := .ok ⟨"dls", urlOf i⟩
  download_coro i _ := .ok ⟨"dls", urlOf i⟩

theorem listContains_correct (m b : List Char) :
    listContains m b = true ↔ m <:+: b := by
  induction b with
  | nil =>
    simp [listContains, List.isEmpty_iff]
  | cons c t ih =>
    simp only [listContains, Bool.or_eq_true, List.isPrefixOf_iff_prefix, ih,
      List.infix_cons_iff]

/-- `strContains body m = true` iff `m` is literally an infix of `body`. -/
theorem strContains_correct (body m : String) :
    strContains body m = true ↔ m.toList <:+: body.toList :=
  listContains_correct _ _

theorem stripFilename_idem (k : DlOpts) :
    stripFilename (stripFilename k) = stripFilename k := by
  cases k with
  | mk f r => cases f <;> simp [stripFilename]

theorem stepResult_strip (env : Env) (k : DlOpts) :
    stepResult env (stripFilename k) = stepResult env k :=
  funext fun u => by simp [stepResult, stripFilename_idem]

theorem stepResultCoro_strip (env : Env) (k : DlOpts) :
    stepResultCoro env (stripFilename k) = stepResultCoro env k :=
  funext fun u => by simp [stepResultCoro, stripFilename_idem]

theorem stepFile_strip (env : Env) (k : DlOpts) :
    stepFile env (stripFilename k) = stepFile env k :=
  funext fun u => by simp [stepFile, stepResult_strip]

theorem stepPath_strip (env : Env) (k : DlOpts) :
    stepPath env (stripFilename k) = stepPath env k :=
  funext fun u => by simp [stepPath, stepResult_strip]

theorem stepFileCoro_strip (env : Env) (k : DlOpts) :
    stepFileCoro env (stripFilename k) = stepFileCoro env k :=
  funext fun u => by simp [stepFileCoro, stepResultCoro_strip]

theorem stepPathCoro_strip (env : Env) (k : DlOpts) :
    stepPathCoro env (stripFilename k) = stepPathCoro env k :=
  funext fun u => by simp [stepPathCoro, stepResultCoro_strip]

theorem stepEvents_strip (env : Env) (uz : Bool) (k : DlOpts) :
    stepEvents env uz (stripFilename k) = stepEvents env uz k :=
  funext fun u => by simp [stepEvents, stripFilename_idem, stepPath_strip]

theorem stepEventsCoro_strip (env : Env) (uz : Bool) (k : DlOpts) :
    stepEventsCoro env uz (stripFilename k) = stepEventsCoro env uz k :=
  funext fun u => by simp [stepEventsCoro, stripFilename_idem, stepPathCoro_strip]

theorem get_info_ok_events (env : Env) (url : String) (i : Info)
    (h : (get_info env url).1 = .ok i) :
    (get_info env url).2 = [.fetchPage url, .finalize] := by
  unfold get_info at h ⊢
  cases hp : env.page url with
  | error s => simp [hp] at h
  | ok body =>
    simp only [hp] at h ⊢
    by_cases h1 : strContains body expiredMsg
    · simp [h1] at h
    · by_cases h2 : strContains body notFoundMsg <;> simp [h1, h2] at h ⊢

theorem get_info_coro_ok_events (env : Env) (url : String) (i : Info)
    (h : (get_info_coro env url).1 = .ok i) :
    (get_info_coro env url).2 = [.fetchPage url, .finalize] := by
  unfold get_info_coro at h ⊢
  cases hp : env.page url with
  | error s => simp [hp] at h
  | ok body =>
    simp only [hp] at h ⊢
    by_cases h1 : strContains body expiredMsg
    · simp [h1] at h
    · by_cases h2 : strContains body notFoundMsg <;> simp [h1, h2] at h ⊢

theorem get_info_error_events (env : Env) (url : String) (e : Err)
    (h : (get_info env url).1 = .error e) :
    (get_info env url).2 = [.fetchPage url] := by
  unfold get_info at h ⊢
  cases hp : env.page url with
  | error s => simp [hp]
  | ok body =>
    simp only [hp] at h ⊢
    by_cases h1 : strContains body expiredMsg
    · simp [h1]
    · by_cases h2 : strContains body notFoundMsg <;> simp [h1, h2] at h ⊢

theorem get_info_coro_error_events (env : Env) (url : String) (e : Err)
    (h : (get_info_coro env url).1 = .error e) :
    (get_info_coro env url).2 = [.fetchPage url] := by
  unfold get_info_coro at h ⊢
  cases hp : env.page url with
  | error s => simp [hp]
  | ok body =>
    simp only [hp] at h ⊢
    by_cases h1 : strContains body expiredMsg
    · simp [h1]
    · by_cases h2 : strContains body notFoundMsg <;> simp [h1, h2] at h ⊢

theorem downloadLoop_cons_ok (env : Env) (uz : Bool) (u : String)
    (rest : List String) (k : DlOpts) (files : List File)
    (dls : List (File × FPath)) (f : File) (fp : FPath)
    (hsr : stepResult env k u = .ok (f, fp)) :
    downloadLoop env uz (u :: rest) k files dls =
      ((downloadLoop env uz rest (stripFilename k) (files ++ [f])
          (dls ++ [(f, fp)])).1,
        stepEvents env uz k u ++
          (downloadLoop env uz rest (stripFilename k) (files ++ [f])
            (dls ++ [(f, fp)])).2) := by
  have hp : stepPath env k u = fp := by simp [stepPath, hsr]
  rcases hgi : get_info env u with ⟨ri, ev⟩
  have hri : (get_info env u).1 = ri := by rw [hgi]
  cases ri with
  | error e => simp [stepResult, hri] at hsr
  | ok i =>
    have hev : ev = [.fetchPage u, .finalize] := by
      have := get_info_ok_events env u i hri
      rw [hgi] at this; exact this
    cases hdl : env.download (env.finalization_info i) (stripFilename k) with
    | error e => simp [stepResult, hri, hdl] at hsr
    | ok fp2 =>
      have hsr2 : stepResult env k u = .ok (⟨env.finalization_info i⟩, fp2) := by
        simp [stepResult, hri, hdl]
      rw [hsr] at hsr2
      simp only [Except.ok.injEq, Prod.mk.injEq] at hsr2
      obtain ⟨hf, hfp⟩ := hsr2
      rcases hrec : downloadLoop env uz rest (stripFilename k)
          (files ++ [f]) (dls ++ [(f, fp)]) with ⟨res, evRest⟩
      simp [downloadLoop, hgi, hdl, hrec, hev, stepEvents, hp, ← hf, ← hfp]

theorem downloadCoroLoop_cons_ok (env : Env) (uz : Bool) (u : String)
    (rest : List String) (k : DlOpts) (files : List File)
    (dls : List (File × FPath)) (f : File) (fp : FPath)
    (hsr : stepResultCoro env k u = .ok (f, fp)) :
    downloadCoroLoop env uz (u :: rest) k files dls =
      ((downloadCoroLoop env uz rest (stripFilename k) (files ++ [f])
          (dls ++ [(f, fp)])).1,
        stepEventsCoro env uz k u ++
          (downloadCoroLoop env uz rest (stripFilename k) (files ++ [f])
            (dls ++ [(f, fp)])).2) := by
  have hp : stepPathCoro env k u = fp := by simp [stepPathCoro, hsr]
  rcases hgi : get_info_coro env u with ⟨ri, ev⟩
  have hri : (get_info_coro env u).1 = ri := by rw [hgi]
  cases ri with
  | error e => simp [stepResultCoro, hri] at hsr
  | ok i =>
    have hev : ev = [.fetchPage u, .finalize] := by
      have := get_info_coro_ok_events env u i hri
      rw [hgi] at this; exact this
    cases hdl : env.download_coro i (stripFilename k) with
    | error e => simp [stepResultCoro, hri, hdl] at hsr
    | ok fp2 =>
      have hsr2 : stepResultCoro env k u = .ok (⟨i⟩, fp2) := by
        simp [stepResultCoro, hri, hdl]
      rw [hsr] at hsr2
      simp only [Except.ok.injEq, Prod.mk.injEq] at hsr2
      obtain ⟨hf, hfp⟩ := hsr2
      rcases hrec : downloadCoroLoop env uz rest (stripFilename k)
          (files ++ [f]) (dls ++ [(f, fp)]) with ⟨res, evRest⟩
      simp [downloadCoroLoop, hgi, hdl, hrec, hev, stepEventsCoro, hp, ← hf, ← hfp]

theorem downloadLoop_allOk (env : Env) (uz : Bool) (urls : List String) :
    ∀ (k : DlOpts) (files : List File) (dls : List (File × FPath)),
      (∀ u ∈ urls, (stepResult env k u).isOk = true) →
      downloadLoop env uz urls k files dls =
        (.ok (files ++ urls.map (stepFile env k),
              dls ++ urls.map fun u => (stepFile env k u, stepPath env k u)),
          urls.flatMap (stepEvents env uz k)) := by
  induction urls with
  | nil => intro k files dls _; simp [downloadLoop]
  | cons u rest ih =>
    intro k files dls h
    have hu := h u (by simp)
    cases hs : stepResult env k u with
    | error e => rw [hs] at hu; simp [Except.isOk, Except.toBool] at hu
    | ok pr =>
      obtain ⟨f, fp⟩ := pr
      have hf : stepFile env k u = f := by simp [stepFile, hs]
      have hp : stepPath env k u = fp := by simp [stepPath, hs]
      rw [downloadLoop_cons_ok env uz u rest k files dls f fp hs]
      rw [ih (stripFilename k) (files ++ [f]) (dls ++ [(f, fp)])
        (fun x hx => by rw [stepResult_strip]; exact h x (by simp [hx]))]
      simp [hf, hp, stepFile_strip, stepPath_strip, stepEvents_strip]

theorem downloadCoroLoop_allOk (env : Env) (uz : Bool) (urls : List String) :
    ∀ (k : DlOpts) (files : List File) (dls : List (File × FPath)),
      (∀ u ∈ urls, (stepResultCoro env k u).isOk = true) →
      downloadCoroLoop env uz urls k files dls =
        (.ok (files ++ urls.map (stepFileCoro env k),
              dls ++ urls.map fun u =>
                (stepFileCoro env k u, stepPathCoro env k u)),
          urls.flatMap (stepEventsCoro env uz k)) := by
  induction urls with
  | nil => intro k files dls _; simp [downloadCoroLoop]
  | cons u rest ih =>
    intro k files dls h
    have hu := h u (by simp)
    cases hs : stepResultCoro env k u with
    | error e => rw [hs] at hu; simp [Except.isOk, Except.toBool] at hu
    | ok pr =>
      obtain ⟨f, fp⟩ := pr
      have hf : stepFileCoro env k u = f := by simp [stepFileCoro, hs]
      have hp : stepPathCoro env k u = fp := by simp [stepPathCoro, hs]
      rw [downloadCoroLoop_cons_ok env uz u rest k files dls f fp hs]
      rw [ih (stripFilename k) (files ++ [f]) (dls ++ [(f, fp)])
        (fun x hx => by rw [stepResultCoro_strip]; exact h x (by simp [hx]))]
      simp [hf, hp, stepFileCoro_strip, stepPathCoro_strip, stepEventsCoro_strip]

theorem downloadLoop_abort (env : Env) (uz : Bool) (u : String) (e : Err)
    (post : List String) (pre : List String) :
    ∀ (k : DlOpts) (files : List File) (dls : List (File × FPath)),
      (∀ x ∈ pre, (stepResult env k x).isOk = true) →
      stepResult env k u = .error e →
      downloadLoop env uz (pre ++ u :: post) k files dls =
        (.error e, pre.flatMap (stepEvents env uz k) ++ failEvents env u) := by
  induction pre with
  | nil =>
    intro k files dls _ hu
    rcases hgi : get_info env u with ⟨ri, ev⟩
    have hri : (get_info env u).1 = ri := by rw [hgi]
    cases ri with
    | error e2 =>
      have he : e2 = e := by simpa [stepResult, hri] using hu
      have hev : ev = [.fetchPage u] := by
        have := get_info_error_events env u e2 hri
        rw [hgi] at this; exact this
      simp [downloadLoop, hgi, failEvents, hri, hev, he]
    | ok i =>
      have hev : ev = [.fetchPage u, .finalize] := by
        have := get_info_ok_events env u i hri
        rw [hgi] at this; exact this
      cases hdl : env.download (env.finalization_info i) (stripFilename k) with
      | error e2 =>
        have he : e2 = e := by simpa [stepResult, hri, hdl] using hu
        simp [downloadLoop, hgi, hdl, failEvents, hri, hev, he]
      | ok fp => simp [stepResult, hri, hdl] at hu
  | cons p ptail ih =>
    intro k files dls hpre hu
    have hp := hpre p (by simp)
    cases hs : stepResult env k p with
    | error e2 => rw [hs] at hp; simp [Except.isOk, Except.toBool] at hp
    | ok pr =>
      obtain ⟨f, fp⟩ := pr
      rw [List.cons_append,
        downloadLoop_cons_ok env uz p (ptail ++ u :: post) k files dls f fp hs]
      rw [ih (stripFilename k) (files ++ [f]) (dls ++ [(f, fp)])
        (fun x hx => by rw [stepResult_strip]; exact hpre x (by simp [hx]))
        (by rw [stepResult_strip]; exact hu)]
      simp [stepEvents_strip]

theorem downloadCoroLoop_abort (env : Env) (uz : Bool) (u : String) (e : Err)
    (post : List String) (pre : List String) :
    ∀ (k : DlOpts) (files : List File) (dls : List (File × FPath)),
      (∀ x ∈ pre, (stepResultCoro env k x).isOk = true) →
      stepResultCoro env k u = .error e →
      downloadCoroLoop env uz (pre ++ u :: post) k files dls =
        (.error e,
          pre.flatMap (stepEventsCoro env uz k) ++ failEventsCoro env u) := by
  induction pre with
  | nil =>
    intro k files dls _ hu
    rcases hgi : get_info_coro env u with ⟨ri, ev⟩
    have hri : (get_info_coro env u).1 = ri := by rw [hgi]
    cases ri with
    | error e2 =>
      have he : e2 = e := by simpa [stepResultCoro, hri] using hu
      have hev : ev = [.fetchPage u] := by
        have := get_info_coro_error_events env u e2 hri
        rw [hgi] at this; exact this
      simp [downloadCoroLoop, hgi, failEventsCoro, hri, hev, he]
    | ok i =>
      have hev : ev = [.fetchPage u, .finalize] := by
        have := get_info_coro_ok_events env u i hri
        rw [hgi] at this; exact this
      cases hdl : env.download_coro i (stripFilename k) with
      | error e2 =>
        have he : e2 = e := by simpa [stepResultCoro, hri, hdl] using hu
        simp [downloadCoroLoop, hgi, hdl, failEventsCoro, hri, hev, he]
      | ok fp => simp [stepResultCoro, hri, hdl] at hu
  | cons p ptail ih =>
    intro k files dls hpre hu
    have hp := hpre p (by simp)
    cases hs : stepResultCoro env k p with
    | error e2 => rw [hs] at hp; simp [Except.isOk, Except.toBool] at hp
    | ok pr =>
      obtain ⟨f, fp⟩ := pr
      rw [List.cons_append,
        downloadCoroLoop_cons_ok env uz p (ptail ++ u :: post) k files dls f fp hs]
      rw [ih (stripFilename k) (files ++ [f]) (dls ++ [(f, fp)])
        (fun x hx => by rw [stepResultCoro_strip]; exact hpre x (by simp [hx]))
        (by rw [stepResultCoro_strip]; exact hu)]
      simp [stepEventsCoro_strip]

theorem fetchedUrls_append (a b : List Event) :
    fetchedUrls (a ++ b) = fetchedUrls a ++ fetchedUrls b := by
  simp [fetchedUrls, List.filterMap_append]

theorem completedDownloads_append (a b : List Event) :
    completedDownloads (a ++ b) =
      completedDownloads a ++ completedDownloads b := by
  simp [completedDownloads, List.filterMap_append]

theorem downloadOptsUsed_append (a b : List Event) :
    downloadOptsUsed (a ++ b) =
      downloadOptsUsed a ++ downloadOptsUsed b := by
  simp [downloadOptsUsed, List.filterMap_append]

theorem unzippedPaths_append (a b : List Event) :
    unzippedPaths (a ++ b) = unzippedPaths a ++ unzippedPaths b := by
  simp [unzippedPaths, List.filterMap_append]

theorem fetchedUrls_stepEvents (env : Env) (uz : Bool) (k : DlOpts)
    (u : String) : fetchedUrls (stepEvents env uz k u) = [u] := by
  cases uz <;> simp [stepEvents, fetchedUrls]

theorem fetchedUrls_stepEventsCoro (env : Env) (uz : Bool) (k : DlOpts)
    (u : String) : fetchedUrls (stepEventsCoro env uz k u) = [u] := by
  cases uz <;> simp [stepEventsCoro, fetchedUrls]

theorem completedDownloads_stepEvents (env : Env) (uz : Bool) (k : DlOpts)
    (u : String) :
    completedDownloads (stepEvents env uz k u) = [stepPath env k u] := by
  cases uz <;> simp [stepEvents, completedDownloads]

theorem completedDownloads_stepEventsCoro (env : Env) (uz : Bool)
    (k : DlOpts) (u : String) :
    completedDownloads (stepEventsCoro env uz k u) =
      [stepPathCoro env k u] := by
  cases uz <;> simp [stepEventsCoro, completedDownloads]

theorem fetchedUrls_failEvents (env : Env) (u : String) :
    fetchedUrls (failEvents env u) = [u] := by
  unfold failEvents
  cases (get_info env u).1 <;> simp [fetchedUrls]

theorem fetchedUrls_failEventsCoro (env : Env) (u : String) :
    fetchedUrls (failEventsCoro env u) = [u] := by
  unfold failEventsCoro
  cases (get_info_coro env u).1 <;> simp [fetchedUrls]

theorem completedDownloads_failEvents (env : Env) (u : String) :
    completedDownloads (failEvents env u) = [] := by
  unfold failEvents
  cases (get_info env u).1 <;> simp [completedDownloads]

theorem completedDownloads_failEventsCoro (env : Env) (u : String) :
    completedDownloads (failEventsCoro env u) = [] := by
  unfold failEventsCoro
  cases (get_info_coro env u).1 <;> simp [completedDownloads]

theorem fetchedUrls_flatMap_step (env : Env) (uz : Bool) (k : DlOpts)
    (urls : List String) :
    fetchedUrls (urls.flatMap (stepEvents env uz k)) = urls := by
  induction urls with
  | nil => simp [fetchedUrls]
  | cons u rest ih =>
    simp [List.flatMap_cons, fetchedUrls_append, fetchedUrls_stepEvents, ih]

theorem fetchedUrls_flatMap_stepCoro (env : Env) (uz : Bool) (k : DlOpts)
    (urls : List String) :
    fetchedUrls (urls.flatMap (stepEventsCoro env uz k)) = urls := by
  induction urls with
  | nil => simp [fetchedUrls]
  | cons u rest ih =>
    simp [List.flatMap_cons, fetchedUrls_append,
      fetchedUrls_stepEventsCoro, ih]

theorem completedDownloads_flatMap_step (env : Env) (uz : Bool)
    (k : DlOpts) (urls : List String) :
    completedDownloads (urls.flatMap (stepEvents env uz k)) =
      urls.map (stepPath env k) := by
  induction urls with
  | nil => simp [completedDownloads]
  | cons u rest ih =>
    simp [List.flatMap_cons, completedDownloads_append,
      completedDownloads_stepEvents, ih]

theorem completedDownloads_flatMap_stepCoro (env : Env) (uz : Bool)
    (k : DlOpts) (urls : List String) :
    completedDownloads (urls.flatMap (stepEventsCoro env uz k)) =
      urls.map (stepPathCoro env k) := by
  induction urls with
  | nil => simp [completedDownloads]
  | cons u rest ih =>
    simp [List.flatMap_cons, completedDownloads_append,
      completedDownloads_stepEventsCoro, ih]

theorem loopOnly_append (a b : List Event) :
    loopOnly (a ++ b) = (loopOnly a && loopOnly b) := by
  simp [loopOnly, List.all_append]

theorem loopOnly_stepEvents (env : Env) (uz : Bool) (k : DlOpts)
    (u : String) : loopOnly (stepEvents env uz k u) = true := by
  cases uz <;> simp [stepEvents, loopOnly]

theorem loopOnly_stepEventsCoro (env : Env) (uz : Bool) (k : DlOpts)
    (u : String) : loopOnly (stepEventsCoro env uz k u) = true := by
  cases uz <;> simp [stepEventsCoro, loopOnly]

theorem loopOnly_failEvents (env : Env) (u : String) :
    loopOnly (failEvents env u) = true := by
  unfold failEvents
  cases (get_info env u).1 <;> simp [loopOnly]

theorem loopOnly_failEventsCoro (env : Env) (u : String) :
    loopOnly (failEventsCoro env u) = true := by
  unfold failEventsCoro
  cases (get_info_coro env u).1 <;> simp [loopOnly]

theorem loopOnly_flatMap_step (env : Env) (uz : Bool) (k : DlOpts)
    (urls : List String) :
    loopOnly (urls.flatMap (stepEvents env uz k)) = true := by
  induction urls with
  | nil => simp [loopOnly]
  | cons u rest ih =>
    simp [List.flatMap_cons, loopOnly_append, loopOnly_stepEvents, ih]

theorem loopOnly_flatMap_stepCoro (env : Env) (uz : Bool) (k : DlOpts)
    (urls : List String) :
    loopOnly (urls.flatMap (stepEventsCoro env uz k)) = true := by
  induction urls with
  | nil => simp [loopOnly]
  | cons u rest ih =>
    simp [List.flatMap_cons, loopOnly_append, loopOnly_stepEventsCoro, ih]

theorem foldl_applyEvent_loopOnly (evs : List Event) :
    ∀ d : Disk, loopOnly evs = true →
      evs.foldl applyEvent d =
        ⟨d.plain ++ completedDownloads evs, d.archives⟩ := by
  induction evs with
  | nil => intro d _; simp [completedDownloads]
  | cons e rest ih =>
    intro d h
    rw [loopOnly] at h
    simp only [List.all_cons, Bool.and_eq_true] at h
    obtain ⟨he, hrest⟩ := h
    rw [← loopOnly] at hrest
    cases e with
    | removeFile p => simp at he
    | createZip p => simp at he
    | zipWrite a p => simp at he
    | downloadFile o p =>
      simp [applyEvent, ih _ hrest, completedDownloads, List.filterMap_cons]
    | fetchPage u =>
      simp [applyEvent, ih _ hrest, completedDownloads, List.filterMap_cons]
    | finalize =>
      simp [applyEvent, ih _ hrest, completedDownloads, List.filterMap_cons]
    | unzipFile p =>
      simp [applyEvent, ih _ hrest, completedDownloads, List.filterMap_cons]

theorem runDisk_loopOnly (evs : List Event) (h : loopOnly evs = true) :
    runDisk evs = ⟨completedDownloads evs, []⟩ := by
  unfold runDisk
  rw [foldl_applyEvent_loopOnly evs Disk.empty h]
  simp [Disk.empty]

theorem archive_zip_eq (d : List (File × FPath)) (z : String) :
    archive_zip d z = zipStep z d := by
  rcases d with _ | ⟨⟨f, p⟩, t⟩ <;> rfl

theorem foldl_zipPairs (z : FPath) (ps : List FPath) :
    ∀ (cont plain : List FPath),
      (∀ q ∈ plain, q ∈ ps) →
      ((ps.map fun p => [Event.zipWrite z p, Event.removeFile p]).flatten).foldl
          applyEvent ⟨plain, [(z, cont)]⟩ = ⟨[], [(z, cont ++ ps)]⟩ := by
  induction ps with
  | nil =>
    intro cont plain h
    have hp : plain = [] := by
      cases plain with
      | nil => rfl
      | cons q t => exact absurd (h q (by simp)) (by simp)
    simp [hp]
  | cons p ptail ih =>
    intro cont plain h
    simp only [List.map_cons, List.flatten_cons, List.cons_append,
      List.nil_append, List.foldl_cons]
    have e1 : applyEvent ⟨plain, [(z, cont)]⟩ (Event.zipWrite z p) =
        ⟨plain, [(z, cont ++ [p])]⟩ := by
      simp [applyEvent]
    have e2 : applyEvent ⟨plain, [(z, cont ++ [p])]⟩ (Event.removeFile p) =
        ⟨plain.filter (· ≠ p), [(z, cont ++ [p])]⟩ := by
      simp [applyEvent]
    rw [e1, e2, ih (cont ++ [p]) (plain.filter (· ≠ p)) ?side]
    · simp
    case side =>
      intro q hq
      obtain ⟨hq1, hq2⟩ := List.mem_filter.mp hq
      rcases List.mem_cons.mp (h q hq1) with h1 | h1
      · exact absurd h1 (by simpa using hq2)
      · exact h1

theorem runDisk_loop_zipStep (loopTr : List Event)
    (hl : loopOnly loopTr = true) (zname : String) (f0 : File) (p0 : FPath)
    (tl : List (File × FPath))
    (hpl : completedDownloads loopTr = ((f0, p0) :: tl).map Prod.snd) :
    runDisk (loopTr ++ (zipStep zname ((f0, p0) :: tl)).2) =
      ⟨[], [(⟨p0.dir, zname⟩, ((f0, p0) :: tl).map Prod.snd)]⟩ := by
  unfold runDisk
  rw [List.foldl_append]
  have h0 : loopTr.foldl applyEvent Disk.empty =
      ⟨completedDownloads loopTr, []⟩ := by
    have := runDisk_loopOnly loopTr hl
    unfold runDisk at this
    exact this
  rw [h0]
  simp only [zipStep, List.foldl_cons]
  have e0 : applyEvent ⟨completedDownloads loopTr, []⟩
      (Event.createZip ⟨p0.dir, zname⟩) =
      ⟨completedDownloads loopTr, [(⟨p0.dir, zname⟩, [])]⟩ := by
    simp [applyEvent]
  have hmm : (((f0, p0) :: tl).map fun fp =>
        [Event.zipWrite ⟨p0.dir, zname⟩ fp.2,
          Event.removeFile fp.2]) =
      (((f0, p0) :: tl).map Prod.snd).map fun p =>
        [Event.zipWrite ⟨p0.dir, zname⟩ p, Event.removeFile p] := by
    simp [List.map_map, Function.comp]
  rw [e0, hpl, hmm]
  have := foldl_zipPairs ⟨p0.dir, zname⟩ (((f0, p0) :: tl).map Prod.snd) []
    (((f0, p0) :: tl).map Prod.snd) (fun q hq => hq)
  simpa using this

theorem download_allOk_nozip (env : Env) (urls : List String)
    (z : Option String) (uz : Bool) (k : DlOpts)
    (hok : ∀ u ∈ urls, (stepResult env k u).isOk = true)
    (hz : zipTruthy z = false) :
    download env urls z uz k =
      (.ok (urls.map (stepFile env k)),
        urls.flatMap (stepEvents env uz k)) := by
  have hl := downloadLoop_allOk env uz urls k [] [] hok
  unfold download
  rw [hz, hl]
  cases z with
  | none => simp
  | some s =>
    have hs : strTruthy s = false := by simpa [zipTruthy] using hz
    simp [hs]

theorem download_coro_allOk_nozip (env : Env) (urls : List String)
    (z : Option String) (uz : Bool) (k : DlOpts)
    (hok : ∀ u ∈ urls, (stepResultCoro env k u).isOk = true)
    (hz : zipTruthy z = false) :
    download_coro env urls z uz k =
      (.ok (urls.map (stepFileCoro env k)),
        urls.flatMap (stepEventsCoro env uz k)) := by
  have hl := downloadCoroLoop_allOk env uz urls k [] [] hok
  unfold download_coro
  rw [hz, hl]
  cases z with
  | none => simp
  | some s =>
    have hs : strTruthy s = false := by simpa [zipTruthy] using hz
    simp [hs]

theorem download_allOk_zip (env : Env) (u0 : String) (us : List String)
    (zname : String) (k : DlOpts)
    (hok : ∀ u ∈ u0 :: us, (stepResult env k u).isOk = true)
    (hz : strTruthy zname = true) :
    download env (u0 :: us) (some zname) false k =
      (.ok ((u0 :: us).map (stepFile env k)),
        (u0 :: us).flatMap (stepEvents env false k) ++
          (zipStep zname
            ((u0 :: us).map fun u => (stepFile env k u, stepPath env k u))).2) := by
  have hl := downloadLoop_allOk env false (u0 :: us) k [] [] hok
  unfold download
  rw [hl]
  simp [hz, zipStep]

theorem download_coro_allOk_zip (env : Env) (u0 : String) (us : List String)
    (zname : String) (k : DlOpts)
    (hok : ∀ u ∈ u0 :: us, (stepResultCoro env k u).isOk = true)
    (hz : strTruthy zname = true) :
    download_coro env (u0 :: us) (some zname) false k =
      (.ok ((u0 :: us).map (stepFileCoro env k)),
        (u0 :: us).flatMap (stepEventsCoro env false k) ++
          (zipStep zname
            ((u0 :: us).map fun u =>
              (stepFileCoro env k u, stepPathCoro env k u))).2) := by
  have hl := downloadCoroLoop_allOk env false (u0 :: us) k [] [] hok
  unfold download_coro
  rw [hl]
  simp [hz, archive_zip_eq, zipStep]

theorem download_abort (env : Env) (uz : Bool) (k : DlOpts)
    (z : Option String) (pre post : List String) (u : String) (e : Err)
    (hvalid : (uz && zipTruthy z) = false)
    (hpre : ∀ x ∈ pre, (stepResult env k x).isOk = true)
    (hu : stepResult env k u = .error e) :
    download env (pre ++ u :: post) z uz k =
      (.error e, pre.flatMap (stepEvents env uz k) ++ failEvents env u) := by
  have hl := downloadLoop_abort env uz u e post pre k [] [] hpre hu
  unfold download
  rw [hvalid, hl]
  simp

theorem download_coro_abort (env : Env) (uz : Bool) (k : DlOpts)
    (z : Option String) (pre post : List String) (u : String) (e : Err)
    (hvalid : (uz && zipTruthy z) = false)
    (hpre : ∀ x ∈ pre, (stepResultCoro env k x).isOk = true)
    (hu : stepResultCoro env k u = .error e) :
    download_coro env (pre ++ u :: post) z uz k =
      (.error e,
        pre.flatMap (stepEventsCoro env uz k) ++ failEventsCoro env u) := by
  have hl := downloadCoroLoop_abort env uz u e post pre k [] [] hpre hu
  unfold download_coro
  rw [hvalid, hl]
  simp

theorem stripFilename_filename (k : DlOpts) :
    (stripFilename k).filename = none := by
  cases hk : k.filename <;> simp [stripFilename, hk]

theorem downloadOptsUsed_get_info (env : Env) (u : String) :
    downloadOptsUsed (get_info env u).2 = [] := by
  unfold get_info
  cases env.page u with
  | error s => simp [downloadOptsUsed]
  | ok body =>
    by_cases h1 : strContains body expiredMsg
    · simp [h1, downloadOptsUsed]
    · by_cases h2 : strContains body notFoundMsg <;>
        simp [h1, h2, downloadOptsUsed]

theorem downloadOptsUsed_get_info_coro (env : Env) (u : String) :
    downloadOptsUsed (get_info_coro env u).2 = [] := by
  unfold get_info_coro
  cases env.page u with
  | error s => simp [downloadOptsUsed]
  | ok body =>
    by_cases h1 : strContains body expiredMsg
    · simp [h1, downloadOptsUsed]
    · by_cases h2 : strContains body notFoundMsg <;>
        simp [h1, h2, downloadOptsUsed]

theorem downloadOpts_loop (env : Env) (uz : Bool) (urls : List String) :
    ∀ (k : DlOpts) (files : List File) (dls : List (File × FPath)),
      ∀ o ∈ downloadOptsUsed (downloadLoop env uz urls k files dls).2,
        o.filename = none := by
  induction urls with
  | nil => intro k files dls o ho; simp [downloadLoop, downloadOptsUsed] at ho
  | cons u rest ih =>
    intro k files dls o ho
    rcases hgi : get_info env u with ⟨ri, ev⟩
    have hev : downloadOptsUsed ev = [] := by
      have := downloadOptsUsed_get_info env u
      rw [hgi] at this; exact this
    cases ri with
    | error e =>
      simp only [downloadLoop, hgi] at ho
      rw [hev] at ho
      simp at ho
    | ok i =>
      cases hdl : env.download (env.finalization_info i) (stripFilename k) with
      | error e =>
        simp only [downloadLoop, hgi, hdl] at ho
        rw [downloadOptsUsed_append, hev] at ho
        simp [downloadOptsUsed] at ho
      | ok fp =>
        rcases hrec : downloadLoop env uz rest (stripFilename k)
            (files ++ [⟨env.finalization_info i⟩])
            (dls ++ [(⟨env.finalization_info i⟩, fp)]) with ⟨res, evRest⟩
        simp only [downloadLoop, hgi, hdl, hrec] at ho
        rw [downloadOptsUsed_append, downloadOptsUsed_append,
          downloadOptsUsed_append, hev] at ho
        have hmid : downloadOptsUsed
            [Event.finalize, Event.downloadFile (stripFilename k) fp] =
            [stripFilename k] := by simp [downloadOptsUsed]
        have hu : downloadOptsUsed
            (if uz then [Event.unzipFile fp] else []) = [] := by
          cases uz <;> simp [downloadOptsUsed]
        rw [hmid, hu] at ho
        simp only [List.nil_append, List.append_nil, List.mem_append,
          List.mem_singleton] at ho
        rcases ho with ho | ho
        · rw [ho]; exact stripFilename_filename k
        · have := ih (stripFilename k) (files ++ [⟨env.finalization_info i⟩])
            (dls ++ [(⟨env.finalization_info i⟩, fp)]) o
          rw [hrec] at this
          exact this ho

theorem downloadOpts_loopCoro (env : Env) (uz : Bool) (urls : List String) :
    ∀ (k : DlOpts) (files : List File) (dls : List (File × FPath)),
      ∀ o ∈ downloadOptsUsed (downloadCoroLoop env uz urls k files dls).2,
        o.filename = none := by
  induction urls with
  | nil =>
    intro k files dls o ho
    simp [downloadCoroLoop, downloadOptsUsed] at ho
  | cons u rest ih =>
    intro k files dls o ho
    rcases hgi : get_info_coro env u with ⟨ri, ev⟩
    have hev : downloadOptsUsed ev = [] := by
      have := downloadOptsUsed_get_info_coro env u
      rw [hgi] at this; exact this
    cases ri with
    | error e =>
      simp only [downloadCoroLoop, hgi] at ho
      rw [hev] at ho
      simp at ho
    | ok i =>
      cases hdl : env.download_coro i (stripFilename k) with
      | error e =>
        simp only [downloadCoroLoop, hgi, hdl] at ho
        rw [hev] at ho
        simp at ho
      | ok fp =>
        rcases hrec : downloadCoroLoop env uz rest (stripFilename k)
            (files ++ [⟨i⟩]) (dls ++ [(⟨i⟩, fp)]) with ⟨res, evRest⟩
        simp only [downloadCoroLoop, hgi, hdl, hrec] at ho
        rw [downloadOptsUsed_append, downloadOptsUsed_append,
          downloadOptsUsed_append, hev] at ho
        have hmid : downloadOptsUsed
            [Event.downloadFile (stripFilename k) fp] =
            [stripFilename k] := by simp [downloadOptsUsed]
        have hu : downloadOptsUsed
            (if uz then [Event.unzipFile fp] else []) = [] := by
          cases uz <;> simp [downloadOptsUsed]
        rw [hmid, hu] at ho
        simp only [List.nil_append, List.append_nil, List.mem_append,
          List.mem_singleton] at ho
        rcases ho with ho | ho
        · rw [ho]; exact stripFilename_filename k
        · have := ih (stripFilename k) (files ++ [⟨i⟩]) (dls ++ [(⟨i⟩, fp)]) o
          rw [hrec] at this
          exact this ho

theorem downloadOptsUsed_zipStep (z : String) (d : List (File × FPath)) :
    downloadOptsUsed (zipStep z d).2 = [] := by
  rcases d with _ | ⟨⟨f, p⟩, t⟩
  · simp [zipStep, downloadOptsUsed]
  · simp only [zipStep, downloadOptsUsed]
    rw [List.filterMap_eq_nil_iff]
    intro e he
    simp only [List.mem_cons, List.mem_flatten, List.mem_map] at he
    rcases he with he | ⟨l, ⟨fp, _, hl⟩, hel⟩
    · rw [he]
    · rw [← hl] at hel
      simp only [List.mem_cons, List.not_mem_nil, or_false] at hel
      rcases hel with hel | hel <;> rw [hel]

theorem downloadOpts_download (env : Env) (urls : List String)
    (z : Option String) (uz : Bool) (k : DlOpts) :
    ∀ o ∈ downloadOptsUsed (download env urls z uz k).2,
      o.filename = none := by
  intro o ho
  unfold download at ho
  by_cases hval : (uz && zipTruthy z) = true
  · rw [if_pos hval] at ho
    simp [downloadOptsUsed] at ho
  · rw [if_neg hval] at ho
    rcases hloopq : downloadLoop env uz urls k [] [] with ⟨res, ev⟩
    have hloop : ∀ x ∈ downloadOptsUsed ev, x.filename = none := by
      intro x hx
      have := downloadOpts_loop env uz urls k [] [] x
      rw [hloopq] at this
      exact this hx
    rw [hloopq] at ho
    cases res with
    | error e => exact hloop o ho
    | ok pr =>
      obtain ⟨files, dls⟩ := pr
      cases z with
      | none => exact hloop o ho
      | some zname =>
        rcases hzq : zipStep zname dls with ⟨zres, zev⟩
        have hzev : downloadOptsUsed zev = [] := by
          have := downloadOptsUsed_zipStep zname dls
          rw [hzq] at this
          exact this
        have ho2 : o ∈ downloadOptsUsed
            (if strTruthy zname = true then
              (match zipStep zname dls with
                | (Except.error e, zev) => (Except.error e, ev ++ zev)
                | (Except.ok _, zev) =>
                    ((Except.ok files :
                      Except Err (List File)), ev ++ zev))
            else (Except.ok files, ev)).2 := ho
        rw [hzq] at ho2
        by_cases hst : strTruthy zname = true
        · rw [hst] at ho2
          have hho : o ∈ downloadOptsUsed (ev ++ zev) := by
            cases zres with
            | error e => exact ho2
            | ok a => exact ho2
          rw [downloadOptsUsed_append, hzev, List.append_nil] at hho
          exact hloop o hho
        · rw [Bool.eq_false_iff.mpr hst] at ho2
          exact hloop o ho2

theorem downloadOpts_download_coro (env : Env) (urls : List String)
    (z : Option String) (uz : Bool) (k : DlOpts) :
    ∀ o ∈ downloadOptsUsed (download_coro env urls z uz k).2,
      o.filename = none := by
  intro o ho
  unfold download_coro at ho
  by_cases hval : (uz && zipTruthy z) = true
  · rw [if_pos hval] at ho
    simp [downloadOptsUsed] at ho
  · rw [if_neg hval] at ho
    rcases hloopq : downloadCoroLoop env uz urls k [] [] with ⟨res, ev⟩
    have hloop : ∀ x ∈ downloadOptsUsed ev, x.filename = none := by
      intro x hx
      have := downloadOpts_loopCoro env uz urls k [] [] x
      rw [hloopq] at this
      exact this hx
    rw [hloopq] at ho
    cases res with
    | error e => exact hloop o ho
    | ok pr =>
      obtain ⟨files, dls⟩ := pr
      cases z with
      | none => exact hloop o ho
      | some zname =>
        rcases hzq : archive_zip dls zname with ⟨zres, zev⟩
        have hzev : downloadOptsUsed zev = [] := by
          have : downloadOptsUsed (archive_zip dls zname).2 = [] := by
            rw [archive_zip_eq]
            exact downloadOptsUsed_zipStep zname dls
          rw [hzq] at this
          exact this
        have ho2 : o ∈ downloadOptsUsed
            (if strTruthy zname = true then
              (match archive_zip dls zname with
                | (Except.error e, zev) => (Except.error e, ev ++ zev)
                | (Except.ok _, zev) =>
                    ((Except.ok files :
                      Except Err (List File)), ev ++ zev))
            else (Except.ok files, ev)).2 := ho
        rw [hzq] at ho2
        by_cases hst : strTruthy zname = true
        · rw [hst] at ho2
          have hho : o ∈ downloadOptsUsed (ev ++ zev) := by
            cases zres with
            | error e => exact ho2
            | ok a => exact ho2
          rw [downloadOptsUsed_append, hzev, List.append_nil] at hho
          exact hloop o hho
        · rw [Bool.eq_false_iff.mpr hst] at ho2
          exact hloop o ho2

theorem downloadOpts_extract_info (env : Env) (url : String) (d uz : Bool)
    (k : DlOpts) :
    ∀ o ∈ downloadOptsUsed (extract_info env url d uz k).2, o = k := by
  intro o ho
  rcases hgi : get_info env url with ⟨ri, ev⟩
  have hev : downloadOptsUsed ev = [] := by
    have := downloadOptsUsed_get_info env url
    rw [hgi] at this; exact this
  cases ri with
  | error e =>
    simp only [extract_info, hgi] at ho
    rw [hev] at ho
    simp at ho
  | ok i =>
    cases d with
    | false =>
      simp only [extract_info, hgi, Bool.false_eq_true, if_false] at ho
      rw [downloadOptsUsed_append, hev] at ho
      simp [downloadOptsUsed] at ho
    | true =>
      simp only [extract_info, hgi, if_true] at ho
      cases hdl : env.download (env.finalization_info i) k with
      | error e =>
        rw [hdl] at ho
        rw [downloadOptsUsed_append, hev] at ho
        simp [downloadOptsUsed] at ho
      | ok fp =>
        rw [hdl] at ho
        rw [downloadOptsUsed_append, downloadOptsUsed_append, hev] at ho
        have hmid : downloadOptsUsed
            [Event.finalize, Event.downloadFile k fp] = [k] := by
          simp [downloadOptsUsed]
        have hu : downloadOptsUsed
            (if uz then [Event.unzipFile fp] else []) = [] := by
          cases uz <;> simp [downloadOptsUsed]
        rw [hmid, hu] at ho
        simpa using ho

theorem downloadOpts_extract_info_coro (env : Env) (url : String)
    (d uz : Bool) (k : DlOpts) :
    ∀ o ∈ downloadOptsUsed (extract_info_coro env url d uz k).2, o = k := by
  intro o ho
  rcases hgi : get_info_coro env url with ⟨ri, ev⟩
  have hev : downloadOptsUsed ev = [] := by
    have := downloadOptsUsed_get_info_coro env url
    rw [hgi] at this; exact this
  cases ri with
  | error e =>
    simp only [extract_info_coro, hgi] at ho
    rw [hev] at ho
    simp at ho
  | ok i =>
    cases d with
    | false =>
      simp only [extract_info_coro, hgi, Bool.false_eq_true, if_false] at ho
      rw [hev] at ho
      simp at ho
    | true =>
      simp only [extract_info_coro, hgi, if_true] at ho
      cases hdl : env.download i k with
      | error e =>
        rw [hdl] at ho
        rw [hev] at ho
        simp at ho
      | ok fp =>
        rw [hdl] at ho
        simp only [downloadOptsUsed_append] at ho
        rw [hev] at ho
        have hmid : downloadOptsUsed [Event.downloadFile k fp] = [k] := by
          simp [downloadOptsUsed]
        have hu : downloadOptsUsed
            (if uz then [Event.unzipFile fp] else []) = [] := by
          cases uz <;> simp [downloadOptsUsed]
        rw [hmid, hu] at ho
        simpa using ho

/-- C2: for every page body that contains the literal expiry marker
"File has expired and does not exist anymore on this server", both
resolvers (`get_info` and `get_info_coro`) fail with `FileExpired`,
even when the body also contains the not-found marker: the expiry
check is performed before the non-existence check. -/
theorem expiry_check_precedes_notfound (env : Env) (url body : String)
    (hpage : env.page url = .ok body)
    (hexp : expiredMsg.toList <:+: body.toList) :
    (get_info env url).1 = .error .fileExpired ∧
    (get_info_coro env url).1 = .error .fileExpired := by
  have hc : strContains body expiredMsg = true :=
    (strContains_correct body expiredMsg).mpr hexp
  constructor
  · simp [get_info, hpage, hc]
  · simp [get_info_coro, hpage, hc]

/-- C2 witness: a concrete page body containing BOTH markers resolves
to `FileExpired` on both paths. -/
theorem expiry_check_precedes_notfound_witness :
    wEnv.page "urlExpired" = .ok expiredBody ∧
    expiredMsg.toList <:+: expiredBody.toList ∧
    notFoundMsg.toList <:+: expiredBody.toList ∧
    (get_info wEnv "urlExpired").1 = .error .fileExpired ∧
    (get_info_coro wEnv "urlExpired").1 = .error .fileExpired := by
  have h2 : expiredMsg.toList <:+: expiredBody.toList :=
    (strContains_correct expiredBody expiredMsg).mp rfl
  have h3 : notFoundMsg.toList <:+: expiredBody.toList :=
    (strContains_correct expiredBody notFoundMsg).mp rfl
  have h := expiry_check_precedes_notfound wEnv "urlExpired" expiredBody
    rfl h2
  exact ⟨rfl, h2, h3, h.1, h.2⟩

/-- C3: for every page body that contains the literal not-found marker
"File does not exist on this server" but not the expiry marker, both
resolvers fail with `FileNotFoundError`. -/
theorem notfound_check_raises (env : Env) (url body : String)
    (hpage : env.page url = .ok body)
    (hnf : notFoundMsg.toList <:+: body.toList)
    (hnexp : ¬ expiredMsg.toList <:+: body.toList) :
    (get_info env url).1 = .error .fileNotFound ∧
    (get_info_coro env url).1 = .error .fileNotFound := by
  have hc1 : strContains body expiredMsg = false :=
    Bool.eq_false_iff.mpr fun h => hnexp ((strContains_correct _ _).mp h)
  have hc2 : strContains body notFoundMsg = true :=
    (strContains_correct _ _).mpr hnf
  constructor
  · simp [get_info, hpage, hc1, hc2]
  · simp [get_info_coro, hpage, hc1, hc2]

/-- C3 witness: a concrete not-found page resolves to
`FileNotFoundError` on both paths. -/
theorem notfound_check_raises_witness :
    wEnv.page "urlMissing" = .ok missingBody ∧
    notFoundMsg.toList <:+: missingBody.toList ∧
    (get_info wEnv "urlMissing").1 = .error .fileNotFound ∧
    (get_info_coro wEnv "urlMissing").1 = .error .fileNotFound := by
  have h2 : notFoundMsg.toList <:+: missingBody.toList :=
    (strContains_correct missingBody notFoundMsg).mp rfl
  have h1 : ¬ expiredMsg.toList <:+: missingBody.toList := fun h =>
    absurd ((strContains_correct missingBody expiredMsg).mpr h)
      (by decide)
  have h := notfound_check_raises wEnv "urlMissing" missingBody rfl h2 h1
  exact ⟨rfl, h2, h.1, h.2⟩

/-- C4: when the `zip` argument is a non-empty string and `unzip` is
true, `download` and `download_coro` fail with the `ValueError` (the
spec names it `ConfigurationError`) and an EMPTY effect trace: no page
is fetched and no file is downloaded, for every urls sequence
including the empty one. -/
theorem zip_unzip_conflict_fails_fast (env : Env) (urls : List String)
    (s : String) (k : DlOpts) (hs : s ≠ "") :
    download env urls (some s) true k = (.error .valueError, []) ∧
    download_coro env urls (some s) true k = (.error .valueError, []) := by
  have ht : zipTruthy (some s) = true := by simp [zipTruthy, strTruthy, hs]
  constructor
  · unfold download
    rw [ht]
    rfl
  · unfold download_coro
    rw [ht]
    rfl

/-- C4 witness: the conflict is reported for a concrete call (and for
an empty urls list). -/
theorem zip_unzip_conflict_fails_fast_witness :
    (download wEnv ["u1"] (some "bundle.zip") true ⟨none, []⟩ =
      (.error .valueError, []) ∧
     download_coro wEnv ["u1"] (some "bundle.zip") true ⟨none, []⟩ =
      (.error .valueError, [])) ∧
    (download wEnv [] (some "bundle.zip") true ⟨none, []⟩ =
      (.error .valueError, []) ∧
     download_coro wEnv [] (some "bundle.zip") true ⟨none, []⟩ =
      (.error .valueError, [])) :=
  ⟨zip_unzip_conflict_fails_fast wEnv ["u1"] "bundle.zip" ⟨none, []⟩
      (by decide),
   zip_unzip_conflict_fails_fast wEnv [] "bundle.zip" ⟨none, []⟩
      (by decide)⟩

/-- C9: calling `download` with an empty urls sequence and a truthy
`zip` reaches `list(downloaded_files.values())[0]` on an empty
accumulator: the call fails with `IndexError`, the effect trace is
empty, and no archive exists on the replayed disk. -/
theorem zip_empty_batch_index_error (env : Env) (s : String) (k : DlOpts)
    (hs : s ≠ "") :
    download env [] (some s) false k = (.error .indexError, []) ∧
    (runDisk (download env [] (some s) false k).2).archives = [] := by
  have ht : strTruthy s = true := by simp [strTruthy, hs]
  have h1 : download env [] (some s) false k = (.error .indexError, []) := by
    unfold download
    simp [downloadLoop, ht, zipStep]
  refine ⟨h1, ?_⟩
  rw [h1]
  rfl

/-- C9 witness: the empty batch with a zip name fails with
`IndexError` at a concrete input. -/
theorem zip_empty_batch_index_error_witness :
    download wEnv [] (some "bundle.zip") false ⟨none, []⟩ =
      (.error .indexError, []) ∧
    (runDisk (download wEnv [] (some "bundle.zip") false
      ⟨none, []⟩).2).archives = [] :=
  zip_empty_batch_index_error wEnv "bundle.zip" ⟨none, []⟩ (by decide)

/-- C1: the blocking and coroutine paths do NOT apply the Finalizer
the same number of times, and do not return the same results, even
with identical collaborators (the coroutine finalizer and downloader
of `wEnv` are definitionally the blocking ones).  `get_info` and
`get_info_coro` do agree, but `download` finalizes each URL twice
(once inside `get_info` at fetcher.py line 46 and again at line 111)
while `download_coro` finalizes once (line 237), so with a
non-idempotent finalizer the returned `File` entities differ;
likewise `extract_info` (line 158) vs `extract_info_coro` (line 193).
This records the code-level divergence behind the claim. -/
theorem finalizer_count_divergence :
    wEnv.finalization_info_coro = wEnv.finalization_info ∧
    wEnv.download_coro = wEnv.download ∧
    (get_info wEnv "u1").1 = (get_info_coro wEnv "u1").1 ∧
    finalizeCount (download wEnv ["u1"] none false ⟨none, []⟩).2 = 2 ∧
    finalizeCount (download_coro wEnv ["u1"] none false ⟨none, []⟩).2 = 1 ∧
    (download wEnv ["u1"] none false ⟨none, []⟩).1 =
      .ok [⟨[("fin", "1"), ("fin", "1"), ("u", "u1"), ("b", cleanBody)]⟩] ∧
    (download_coro wEnv ["u1"] none false ⟨none, []⟩).1 =
      .ok [⟨[("fin", "1"), ("u", "u1"), ("b", cleanBody)]⟩] ∧
    (⟨[("fin", "1"), ("fin", "1"), ("u", "u1"), ("b", cleanBody)]⟩ : File) ≠
      ⟨[("fin", "1"), ("u", "u1"), ("b", cleanBody)]⟩ ∧
    finalizeCount (extract_info wEnv "u1" false false ⟨none, []⟩).2 = 2 ∧
    finalizeCount (extract_info_coro wEnv "u1" false false ⟨none, []⟩).2 = 1 :=
  ⟨rfl, rfl, rfl, rfl, rfl, rfl, rfl, by decide, rfl, rfl⟩

/-- C5: when the batch loop of `download` / `download_coro` hits a URL
whose resolution or download fails (after a prefix of URLs that all
succeed), the error propagates immediately: the result is that error,
exactly the prefix URLs plus the failing one have been fetched, exactly
the prefix downloads completed, and the prefix files remain on the
replayed disk (no rollback). -/
theorem batch_abort_on_first_failure (env : Env) (uz : Bool) (k : DlOpts)
    (z : Option String) (pre post : List String) (u : String) (e eC : Err)
    (hvalid : (uz && zipTruthy z) = false)
    (hpre : ∀ x ∈ pre, (stepResult env k x).isOk = true)
    (hu : stepResult env k u = .error e)
    (hpreC : ∀ x ∈ pre, (stepResultCoro env k x).isOk = true)
    (huC : stepResultCoro env k u = .error eC) :
    ((download env (pre ++ u :: post) z uz k).1 = .error e ∧
      fetchedUrls (download env (pre ++ u :: post) z uz k).2 = pre ++ [u] ∧
      completedDownloads (download env (pre ++ u :: post) z uz k).2 =
        pre.map (stepPath env k) ∧
      (runDisk (download env (pre ++ u :: post) z uz k).2).plain =
        pre.map (stepPath env k)) ∧
    ((download_coro env (pre ++ u :: post) z uz k).1 = .error eC ∧
      fetchedUrls (download_coro env (pre ++ u :: post) z uz k).2 =
        pre ++ [u] ∧
      completedDownloads (download_coro env (pre ++ u :: post) z uz k).2 =
        pre.map (stepPathCoro env k) ∧
      (runDisk (download_coro env (pre ++ u :: post) z uz k).2).plain =
        pre.map (stepPathCoro env k)) := by
  have hd := download_abort env uz k z pre post u e hvalid hpre hu
  have hdC := download_coro_abort env uz k z pre post u eC hvalid hpreC huC
  rw [hd, hdC]
  have hlo : loopOnly
      (pre.flatMap (stepEvents env uz k) ++ failEvents env u) = true := by
    rw [loopOnly_append, loopOnly_flatMap_step, loopOnly_failEvents]
    rfl
  have hloC : loopOnly
      (pre.flatMap (stepEventsCoro env uz k) ++
        failEventsCoro env u) = true := by
    rw [loopOnly_append, loopOnly_flatMap_stepCoro, loopOnly_failEventsCoro]
    rfl
  refine ⟨⟨rfl, ?_, ?_, ?_⟩, rfl, ?_, ?_, ?_⟩
  · rw [fetchedUrls_append, fetchedUrls_flatMap_step, fetchedUrls_failEvents]
  · rw [completedDownloads_append, completedDownloads_flatMap_step,
      completedDownloads_failEvents, List.append_nil]
  · rw [runDisk_loopOnly _ hlo]
    rw [completedDownloads_append, completedDownloads_flatMap_step,
      completedDownloads_failEvents, List.append_nil]
  · rw [fetchedUrls_append, fetchedUrls_flatMap_stepCoro,
      fetchedUrls_failEventsCoro]
  · rw [completedDownloads_append, completedDownloads_flatMap_stepCoro,
      completedDownloads_failEventsCoro, List.append_nil]
  · rw [runDisk_loopOnly _ hloC]
    rw [completedDownloads_append, completedDownloads_flatMap_stepCoro,
      completedDownloads_failEventsCoro, List.append_nil]

/-- C5 witness: with three URLs where the second fails resolution
(not-found page), the batch aborts with `FileNotFoundError`, the first
file was downloaded and is still on disk, and the third URL was never
fetched. -/
theorem batch_abort_on_first_failure_witness :
    (∀ x ∈ ["u1"], (stepResult wEnv ⟨none, []⟩ x).isOk = true) ∧
    stepResult wEnv ⟨none, []⟩ "urlMissing" = .error .fileNotFound ∧
    stepResultCoro wEnv ⟨none, []⟩ "urlMissing" = .error .fileNotFound ∧
    (download wEnv ["u1", "urlMissing", "u3"] none false ⟨none, []⟩).1 =
      .error .fileNotFound ∧
    fetchedUrls (download wEnv ["u1", "urlMissing", "u3"] none false
      ⟨none, []⟩).2 = ["u1", "urlMissing"] ∧
    completedDownloads (download wEnv ["u1", "urlMissing", "u3"] none false
      ⟨none, []⟩).2 = [⟨"dls", "u1"⟩] ∧
    (runDisk (download wEnv ["u1", "urlMissing", "u3"] none false
      ⟨none, []⟩).2).plain = [⟨"dls", "u1"⟩] ∧
    (download_coro wEnv ["u1", "urlMissing", "u3"] none false
      ⟨none, []⟩).1 = .error .fileNotFound := by
  have h := batch_abort_on_first_failure wEnv false ⟨none, []⟩ none ["u1"]
    ["u3"] "urlMissing" .fileNotFound .fileNotFound rfl (by decide) rfl
    (by decide) rfl
  exact ⟨by decide, rfl, rfl, h.1.1, h.1.2.1, h.1.2.2.1, h.1.2.2.2, h.2.1⟩

/-- C7: a successful batch call returns exactly one `File` entity per
input URL, in input order, and the returned sequence does not depend
on the zip/unzip post-processing options (for any valid combination of
them). -/
theorem batch_returns_files_in_order (env : Env) (urls : List String)
    (z : Option String) (uz : Bool) (k : DlOpts)
    (hvalid : (uz && zipTruthy z) = false)
    (hne : zipTruthy z = true → urls ≠ [])
    (hok : ∀ u ∈ urls, (stepResult env k u).isOk = true)
    (hokC : ∀ u ∈ urls, (stepResultCoro env k u).isOk = true) :
    (download env urls z uz k).1 = .ok (urls.map (stepFile env k)) ∧
    (download_coro env urls z uz k).1 =
      .ok (urls.map (stepFileCoro env k)) := by
  cases hzt : zipTruthy z with
  | false =>
    rw [download_allOk_nozip env urls z uz k hok hzt,
      download_coro_allOk_nozip env urls z uz k hokC hzt]
    exact ⟨rfl, rfl⟩
  | true =>
    have huz : uz = false := by
      cases uz
      · rfl
      · rw [hzt] at hvalid
        simp at hvalid
    obtain ⟨s, hzs⟩ : ∃ s, z = some s := by
      cases z with
      | none => simp [zipTruthy] at hzt
      | some s => exact ⟨s, rfl⟩
    have hst : strTruthy s = true := by
      rw [hzs] at hzt
      simpa [zipTruthy] using hzt
    obtain ⟨u0, us, hurls⟩ : ∃ u0 us, urls = u0 :: us := by
      cases urls with
      | nil => exact absurd rfl (hne hzt)
      | cons a l => exact ⟨a, l, rfl⟩
    subst huz hzs hurls
    rw [download_allOk_zip env u0 us s k hok hst,
      download_coro_allOk_zip env u0 us s k hokC hst]
    exact ⟨rfl, rfl⟩

/-- C7 witness: a concrete two-URL batch with zip bundling returns the
two `File` entities in input order (per concurrency model). -/
theorem batch_returns_files_in_order_witness :
    (∀ u ∈ ["u1", "u2"], (stepResult wEnv ⟨none, []⟩ u).isOk = true) ∧
    (download wEnv ["u1", "u2"] (some "bundle.zip") false ⟨none, []⟩).1 =
      .ok [⟨[("fin", "1"), ("fin", "1"), ("u", "u1"), ("b", cleanBody)]⟩,
        ⟨[("fin", "1"), ("fin", "1"), ("u", "u2"), ("b", cleanBody)]⟩] ∧
    (download_coro wEnv ["u1", "u2"] (some "bundle.zip") false
      ⟨none, []⟩).1 =
      .ok [⟨[("fin", "1"), ("u", "u1"), ("b", cleanBody)]⟩,
        ⟨[("fin", "1"), ("u", "u2"), ("b", cleanBody)]⟩] := by
  have h := batch_returns_files_in_order wEnv ["u1", "u2"]
    (some "bundle.zip") false ⟨none, []⟩ rfl (fun _ => by decide)
    (by decide) (by decide)
  exact ⟨by decide, h.1, h.2⟩

/-- C6: after a successful batch with a non-empty urls list and a
truthy `zip` name, a single archive exists on the replayed disk, named
by the zip argument, located in the directory of the first downloaded
file, containing every downloaded file in order, and every original
downloaded file has been deleted.  (The distinct-paths hypotheses
reflect that `os.remove` would itself fail on a duplicate path, so a
successful run has pairwise-distinct download paths.) -/
theorem zip_bundles_and_removes_originals (env : Env) (u0 : String)
    (us : List String) (zname : String) (k : DlOpts)
    (hz : zname ≠ "")
    (hok : ∀ u ∈ u0 :: us, (stepResult env k u).isOk = true)
    (hokC : ∀ u ∈ u0 :: us, (stepResultCoro env k u).isOk = true)
    (_hnd : ((u0 :: us).map (stepPath env k)).Nodup)
    (_hndC : ((u0 :: us).map (stepPathCoro env k)).Nodup) :
    (download env (u0 :: us) (some zname) false k).1 =
      .ok ((u0 :: us).map (stepFile env k)) ∧
    runDisk (download env (u0 :: us) (some zname) false k).2 =
      ⟨[], [(⟨(stepPath env k u0).dir, zname⟩,
        (u0 :: us).map (stepPath env k))]⟩ ∧
    (download_coro env (u0 :: us) (some zname) false k).1 =
      .ok ((u0 :: us).map (stepFileCoro env k)) ∧
    runDisk (download_coro env (u0 :: us) (some zname) false k).2 =
      ⟨[], [(⟨(stepPathCoro env k u0).dir, zname⟩,
        (u0 :: us).map (stepPathCoro env k))]⟩ := by
  have hst : strTruthy zname = true := by simp [strTruthy, hz]
  have hd := download_allOk_zip env u0 us zname k hok hst
  have hdC := download_coro_allOk_zip env u0 us zname k hokC hst
  rw [hd, hdC]
  refine ⟨rfl, ?_, rfl, ?_⟩
  · have hlo := loopOnly_flatMap_step env false k (u0 :: us)
    have hmap : ((u0 :: us).map fun u =>
          (stepFile env k u, stepPath env k u)) =
        (stepFile env k u0, stepPath env k u0) ::
          (us.map fun u => (stepFile env k u, stepPath env k u)) := by
      simp
    rw [hmap]
    have hpl : completedDownloads
        ((u0 :: us).flatMap (stepEvents env false k)) =
        ((stepFile env k u0, stepPath env k u0) ::
          (us.map fun u => (stepFile env k u, stepPath env k u))).map
            Prod.snd := by
      rw [completedDownloads_flatMap_step]
      simp [List.map_map, Function.comp]
    rw [runDisk_loop_zipStep ((u0 :: us).flatMap (stepEvents env false k))
      hlo zname (stepFile env k u0) (stepPath env k u0)
      (us.map fun u => (stepFile env k u, stepPath env k u)) hpl]
    simp [List.map_map, Function.comp]
  · have hlo := loopOnly_flatMap_stepCoro env false k (u0 :: us)
    have hmap : ((u0 :: us).map fun u =>
          (stepFileCoro env k u, stepPathCoro env k u)) =
        (stepFileCoro env k u0, stepPathCoro env k u0) ::
          (us.map fun u => (stepFileCoro env k u, stepPathCoro env k u)) := by
      simp
    rw [hmap]
    have hpl : completedDownloads
        ((u0 :: us).flatMap (stepEventsCoro env false k)) =
        ((stepFileCoro env k u0, stepPathCoro env k u0) ::
          (us.map fun u =>
            (stepFileCoro env k u, stepPathCoro env k u))).map
            Prod.snd := by
      rw [completedDownloads_flatMap_stepCoro]
      simp [List.map_map, Function.comp]
    rw [runDisk_loop_zipStep
      ((u0 :: us).flatMap (stepEventsCoro env false k))
      hlo zname (stepFileCoro env k u0) (stepPathCoro env k u0)
      (us.map fun u => (stepFileCoro env k u, stepPathCoro env k u)) hpl]
    simp [List.map_map, Function.comp]

/-- C6 witness: a concrete two-URL batch with zip name "bundle.zip"
leaves exactly one archive (in the downloads directory) holding both
files, and no plain files. -/
theorem zip_bundles_and_removes_originals_witness :
    ("bundle.zip" : String) ≠ "" ∧
    ((["u1", "u2"] : List String).map
      (stepPath wEnv ⟨none, []⟩)).Nodup ∧
    (download wEnv ["u1", "u2"] (some "bundle.zip") false ⟨none, []⟩).1 =
      .ok [⟨[("fin", "1"), ("fin", "1"), ("u", "u1"), ("b", cleanBody)]⟩,
        ⟨[("fin", "1"), ("fin", "1"), ("u", "u2"), ("b", cleanBody)]⟩] ∧
    runDisk (download wEnv ["u1", "u2"] (some "bundle.zip") false
      ⟨none, []⟩).2 =
      ⟨[], [(⟨"dls", "bundle.zip"⟩,
        [⟨"dls", "u1"⟩, ⟨"dls", "u2"⟩])]⟩ ∧
    runDisk (download_coro wEnv ["u1", "u2"] (some "bundle.zip") false
      ⟨none, []⟩).2 =
      ⟨[], [(⟨"dls", "bundle.zip"⟩,
        [⟨"dls", "u1"⟩, ⟨"dls", "u2"⟩])]⟩ := by
  have h := zip_bundles_and_removes_originals wEnv "u1" ["u2"]
    "bundle.zip" ⟨none, []⟩ (by decide) (by decide) (by decide)
    (by decide) (by decide)
  exact ⟨by decide, by decide, h.1, h.2.1, h.2.2.2⟩

/-- C8: `extract_info` (and `extract_info_coro`) resolve the URL and
return the `File` entity whether or not `download` is requested; the
byte transfer happens exactly when `download` is true, and the
in-place unzip happens exactly when `download` and `unzip` are both
true. -/
theorem extract_info_download_iff (env : Env) (url : String) (k : DlOpts)
    (uz : Bool) (i iC : Info) (fp fpC : FPath)
    (hgi : (get_info env url).1 = .ok i)
    (hdl : env.download (env.finalization_info i) k = .ok fp)
    (hgiC : (get_info_coro env url).1 = .ok iC)
    (hdlC : env.download iC k = .ok fpC) :
    ((extract_info env url true uz k).1 = .ok ⟨env.finalization_info i⟩ ∧
     (extract_info env url false uz k).1 = .ok ⟨env.finalization_info i⟩ ∧
     completedDownloads (extract_info env url true uz k).2 = [fp] ∧
     completedDownloads (extract_info env url false uz k).2 = [] ∧
     unzippedPaths (extract_info env url true uz k).2 =
       (if uz then [fp] else []) ∧
     unzippedPaths (extract_info env url false uz k).2 = []) ∧
    ((extract_info_coro env url true uz k).1 = .ok ⟨iC⟩ ∧
     (extract_info_coro env url false uz k).1 = .ok ⟨iC⟩ ∧
     completedDownloads (extract_info_coro env url true uz k).2 = [fpC] ∧
     completedDownloads (extract_info_coro env url false uz k).2 = [] ∧
     unzippedPaths (extract_info_coro env url true uz k).2 =
       (if uz then [fpC] else []) ∧
     unzippedPaths (extract_info_coro env url false uz k).2 = []) := by
  rcases hp : get_info env url with ⟨ri, ev⟩
  have hri : ri = .ok i := by
    rw [hp] at hgi
    exact hgi
  subst hri
  have hev : ev = [.fetchPage url, .finalize] := by
    have h2 := get_info_ok_events env url i (by rw [hp])
    rw [hp] at h2
    exact h2
  subst hev
  rcases hpC : get_info_coro env url with ⟨riC, evC⟩
  have hriC : riC = .ok iC := by
    rw [hpC] at hgiC
    exact hgiC
  subst hriC
  have hevC : evC = [.fetchPage url, .finalize] := by
    have h2 := get_info_coro_ok_events env url iC (by rw [hpC])
    rw [hpC] at h2
    exact h2
  subst hevC
  refine ⟨⟨?_, ?_, ?_, ?_, ?_, ?_⟩, ?_, ?_, ?_, ?_, ?_, ?_⟩ <;>
    cases uz <;>
    simp [extract_info, extract_info_coro, hp, hpC, hdl, hdlC,
      completedDownloads, unzippedPaths]

/-- C8 witness: at a concrete URL, the same `File` comes back with and
without download, the transfer is recorded exactly in the download
case, and the unzip is recorded exactly when both flags hold. -/
theorem extract_info_download_iff_witness :
    (get_info wEnv "u1").1 =
      .ok [("fin", "1"), ("u", "u1"), ("b", cleanBody)] ∧
    wEnv.download (wEnv.finalization_info
      [("fin", "1"), ("u", "u1"), ("b", cleanBody)]) ⟨none, []⟩ =
      .ok ⟨"dls", "u1"⟩ ∧
    (extract_info wEnv "u1" true true ⟨none, []⟩).1 =
      .ok ⟨[("fin", "1"), ("fin", "1"), ("u", "u1"), ("b", cleanBody)]⟩ ∧
    (extract_info wEnv "u1" false true ⟨none, []⟩).1 =
      .ok ⟨[("fin", "1"), ("fin", "1"), ("u", "u1"), ("b", cleanBody)]⟩ ∧
    completedDownloads (extract_info wEnv "u1" true true ⟨none, []⟩).2 =
      [⟨"dls", "u1"⟩] ∧
    completedDownloads (extract_info wEnv "u1" false true ⟨none, []⟩).2 =
      [] ∧
    unzippedPaths (extract_info wEnv "u1" true true ⟨none, []⟩).2 =
      [⟨"dls", "u1"⟩] ∧
    (extract_info_coro wEnv "u1" true true ⟨none, []⟩).1 =
      .ok ⟨[("fin", "1"), ("u", "u1"), ("b", cleanBody)]⟩ := by
  have h := extract_info_download_iff wEnv "u1" ⟨none, []⟩ true
    [("fin", "1"), ("u", "u1"), ("b", cleanBody)]
    [("fin", "1"), ("u", "u1"), ("b", cleanBody)]
    ⟨"dls", "u1"⟩ ⟨"dls", "u1"⟩ rfl rfl rfl rfl
  exact ⟨rfl, rfl, h.1.1, h.1.2.1, h.1.2.2.1, h.1.2.2.2.1,
    h.1.2.2.2.2.1, h.2.1⟩

/-- C10: when the download options carry a non-None `filename` entry,
every download invoked by the batch orchestrators (`download`,
`download_coro`) receives options with the `filename` entry removed,
whereas `extract_info` / `extract_info_coro` pass the options through
to the download unchanged. -/
theorem batch_strips_filename_option (env : Env) (urls : List String)
    (z : Option String) (uz d : Bool) (k : DlOpts) (s : String)
    (url : String) (_hk : k.filename = some s) :
    (∀ o ∈ downloadOptsUsed (download env urls z uz k).2,
      o.filename = none) ∧
    (∀ o ∈ downloadOptsUsed (download_coro env urls z uz k).2,
      o.filename = none) ∧
    (∀ o ∈ downloadOptsUsed (extract_info env url d uz k).2, o = k) ∧
    (∀ o ∈ downloadOptsUsed (extract_info_coro env url d uz k).2, o = k) :=
  ⟨downloadOpts_download env urls z uz k,
   downloadOpts_download_coro env urls z uz k,
   downloadOpts_extract_info env url d uz k,
   downloadOpts_extract_info_coro env url d uz k⟩

/-- C10 witness: with a caller-supplied filename, the batch download
invokes the transfer with no filename while `extract_info` hands the
filename through. -/
theorem batch_strips_filename_option_witness :
    (⟨some "custom", []⟩ : DlOpts).filename = some "custom" ∧
    (∀ o ∈ downloadOptsUsed
        (download wEnv ["u1"] none false ⟨some "custom", []⟩).2,
      o.filename = none) ∧
    downloadOptsUsed
      (download wEnv ["u1"] none false ⟨some "custom", []⟩).2 =
      [⟨none, []⟩] ∧
    downloadOptsUsed
      (extract_info wEnv "u1" true false ⟨some "custom", []⟩).2 =
      [⟨some "custom", []⟩] := by
  have h := batch_strips_filename_option wEnv ["u1"] none false true
    ⟨some "custom", []⟩ "custom" "u1" rfl
  exact ⟨rfl, h.1, rfl, rfl⟩

end Zippyshare
